import Mathlib

/-!
Verification of the PearlConnect backend's availability and booking engine.

The definitions below are a shallow embedding of the JavaScript source:

  * `parseTimeString` / `formatTimeString` embed the 12-hour time helpers of
    `controllers/availability.js` (the booking controller contains verbatim
    copies named `parseTimeStringInternal` / `formatTimeStringInternal`).
  * `generateTimeSlots` embeds the slot generator of `controllers/availability.js`;
    `getSlotsCore` embeds the slot-listing endpoint of that controller from the
    availability lookup on (the provider-existence and role checks upstream never
    touch the slot computation and every failure there returns before it).
  * `getAvailableSlotsInternal` embeds the independent re-derivation of slots
    performed by the booking controller, and `createBooking` embeds its POST
    handler, including the conflict check against the booking store.

Modelling conventions:
  * JavaScript wall-clock times are modelled as minutes from the requested
    day's midnight (a `Date` built with `setHours(h, m, 0, 0)` and compared or
    advanced in milliseconds is equivalent to this up to the fixed day base;
    `getHours()` becomes `(t / 60) % 24` and `getMinutes()` becomes `t % 60`,
    which also accounts for the day rollover `setHours` performs on large values).
  * Numeric schema fields are modelled as `Nat`: every stored value passes the
    mongoose validators (`slotDuration` 15..480, `bufferTime` 0..120,
    `dayOfWeek` 0..6), all of which force nonnegative integers.
  * A thrown exception inside a handler (always caught by the route's
    `catch` block) is modelled as `Option.none`.
  * Absent optional string fields are modelled as `""`, matching the
    falsiness checks (`exception.customStartTime`, `exception.reason || ...`)
    the source performs on them.
  * The iteration of the generator `while` loops is bounded by an explicit
    fuel; the fuel supplied by the wrappers is sufficient whenever
    `slotDuration + bufferTime ≥ 1`, and the `slotDuration + bufferTime = 0`
    case (impossible for schema-valid schedules) is mapped to `none`, the
    same marker as a hung request, since the JavaScript loop then never ends.
-/

namespace PearlConnect

/-! ### Character helpers for the embedded string functions -/

def isDigitChar (c : Char) : Bool := '0' ≤ c && c ≤ '9'

def digitVal (c : Char) : Nat := c.toNat - 48

def digitToChar (n : Nat) : Char := Char.ofNat (48 + n)

/-- Decimal rendering of a natural number below 100, the range produced by
`formatTimeString` (display hours are 1..12, minutes 0..59). -/
def natToChars (n : Nat) : List Char :=
  if n < 10 then [digitToChar n] else [digitToChar (n / 10), digitToChar (n % 10)]

/-- Two-digit zero-padded rendering, the effect of `.toString().padStart(2, '0')`
on the minute values (always below 60) it is applied to. -/
def pad2 (n : Nat) : List Char := [digitToChar (n / 10), digitToChar (n % 10)]

/-- Characters matched by the regular-expression class `\s` that can occur in a
single-line HTTP JSON string field. -/
def jsWhitespace (c : Char) : Bool :=
  c == ' ' || c == '\t' || c == '\n' || c == '\x0d' || c == '\x0b' || c == '\x0c'

/-! ### parseTimeString and formatTimeString (controllers/availability.js lines 343-365) -/

/-- Matcher for the period group `(AM|PM)` of the time regular expressions,
case-insensitive; `true` means PM. -/
def parsePeriod : List Char → Option Bool
  | [p, m] =>
    if m == 'M' || m == 'm' then
      if p == 'A' || p == 'a' then some false
      else if p == 'P' || p == 'p' then some true
      else none
    else none
  | _ => none

/-- Matcher for the part after the colon in `/^(\d{1,2}):(\d{2})\s?(AM|PM)$/i`:
two minute digits, an optional whitespace character, and the period. -/
def parseAfterColon (hours : Nat) : List Char → Option (Nat × Nat × Bool)
  | m1 :: m2 :: rest =>
    if isDigitChar m1 && isDigitChar m2 then
      match rest with
      | c :: rest2 =>
        if jsWhitespace c then
          (parsePeriod rest2).map (fun pm => (hours, 10 * digitVal m1 + digitVal m2, pm))
        else
          (parsePeriod (c :: rest2)).map (fun pm => (hours, 10 * digitVal m1 + digitVal m2, pm))
      | [] => none
    else none
  | _ => none

/-- Matcher for `timeStr.match(/^(\d{1,2}):(\d{2})\s?(AM|PM)$/i)` in
`parseTimeString`: one or two hour digits, a colon, then the rest. -/
def parseTimeMatch : List Char → Option (Nat × Nat × Bool)
  | c1 :: c2 :: rest =>
    if c2 = ':' then
      if isDigitChar c1 then parseAfterColon (digitVal c1) rest else none
    else
      match rest with
      | c3 :: rest2 =>
        if c3 = ':' then
          if isDigitChar c1 && isDigitChar c2 then
            parseAfterColon (10 * digitVal c1 + digitVal c2) rest2
          else none
        else none
      | [] => none
  | _ => none

/-- Embedding of `parseTimeString` (and of its verbatim copy
`parseTimeStringInternal` in the booking controller): match the permissive
12-hour pattern and convert to 24-hour `(hours, minutes)`; `none` models the
`null` return on a failed match. -/
def parseTimeString (timeStr : String) : Option (Nat × Nat) :=
  match parseTimeMatch timeStr.data with
  | none => none
  | some (h, m, isPM) =>
    let hours := if isPM && h != 12 then h + 12 else if !isPM && h == 12 then 0 else h
    some (hours, m)

/-- Embedding of `formatTimeString` (and of `formatTimeStringInternal`), applied
to a time expressed as minutes from the requested day's midnight. -/
def formatTimeString (t : Nat) : String :=
  let hours := (t / 60) % 24
  let minutes := t % 60
  let period := if hours ≥ 12 then "PM" else "AM"
  let displayHours := if hours == 0 then 12 else if hours > 12 then hours - 12 else hours
  ⟨natToChars displayHours ++ ':' :: (pad2 minutes ++ ' ' :: period.data)⟩

/-! ### Data model (models/availability.js, models/booking.js and the timeSlot-bearing
booking schema variant with the conflict-detection index) -/

structure BreakTime where
  startTime : String
  endTime : String
deriving Repr, DecidableEq

/-- Value of a JavaScript `Date` as the source observes it: the instant
(`getTime`), the local weekday (`getDay`) and the calendar-date part of
`toISOString`. -/
structure DateVal where
  ms : Int
  dayOfWeek : Nat
  isoDate : String
deriving Repr, DecidableEq

structure DaySchedule where
  dayOfWeek : Nat
  isEnabled : Bool
  startTime : String
  endTime : String
  slotDuration : Nat
  bufferTime : Nat
  breakTimes : List BreakTime
deriving Repr, DecidableEq

structure DateException where
  date : DateVal
  isAvailable : Bool
  customStartTime : String
  customEndTime : String
  reason : String
deriving Repr, DecidableEq

structure Availability where
  providerId : String
  schedules : List DaySchedule
  exceptions : List DateException
  timezone : String
  advanceBookingDays : Nat
deriving Repr, DecidableEq

/-- Slot produced internally, before formatting, as minutes from midnight. -/
structure SlotM where
  startMin : Nat
  endMin : Nat
  available : Bool
deriving Repr, DecidableEq

/-- Slot object the handlers emit: formatted start and end times. -/
structure Slot where
  startTime : String
  endTime : String
  available : Bool
deriving Repr, DecidableEq

def renderSlot (s : SlotM) : Slot :=
  ⟨formatTimeString s.startMin, formatTimeString s.endMin, s.available⟩

/-! ### generateTimeSlots (controllers/availability.js lines 298-340) -/

/-- Embedding of the `breakTimes.some(...)` test inside `generateTimeSlots`.
The comparison is the source's hour-granularity containment check.  `none`
models the TypeError thrown (and caught by the route) when a stored break time
fails to parse exactly where the callback dereferences the `null`; note the
`&&` short-circuit: a failed parse of `breakTime.endTime` only throws when the
first conjunct held. -/
def isDuringBreakGen (cur slotEnd : Nat) : List BreakTime → Option Bool
  | [] => some false
  | bt :: rest =>
    match parseTimeString bt.startTime with
    | none => none
    | some bs =>
      let slotStartHour := (cur / 60) % 24
      if slotStartHour ≥ bs.1 || (slotStartHour == bs.1 && cur % 60 ≥ bs.2) then
        match parseTimeString bt.endTime with
        | none => none
        | some be =>
          let slotEndHour := (slotEnd / 60) % 24
          if slotEndHour ≤ be.1 || (slotEndHour == be.1 && slotEnd % 60 ≤ be.2) then
            some true
          else isDuringBreakGen cur slotEnd rest
      else isDuringBreakGen cur slotEnd rest

/-- The `while (currentTime < endDateTime)` loop of `generateTimeSlots`:
emit the candidate slot when it is outside every break and ends by
`endDateTime`, then advance the cursor by `slotDuration + bufferTime`. -/
def genSlotsLoop (slotDuration bufferTime endM : Nat) (breakTimes : List BreakTime) :
    Nat → Nat → Option (List SlotM)
  | 0, _ => none
  | fuel + 1, cur =>
    if cur < endM then
      if slotDuration + bufferTime == 0 then none
      else
        match isDuringBreakGen cur (cur + slotDuration) breakTimes with
        | none => none
        | some during =>
          match genSlotsLoop slotDuration bufferTime endM breakTimes fuel
              (cur + slotDuration + bufferTime) with
          | none => none
          | some rest =>
            if !during && cur + slotDuration ≤ endM then
              some (⟨cur, cur + slotDuration, true⟩ :: rest)
            else some rest
    else some []

/-- Embedding of `generateTimeSlots` up to formatting: parse the window
endpoints and run the loop from the start minute. -/
def generateTimeSlotsM (startTime endTime : String) (slotDuration bufferTime : Nat)
    (breakTimes : List BreakTime) : Option (List SlotM) :=
  match parseTimeString startTime, parseTimeString endTime with
  | some s, some e =>
    let startM := s.1 * 60 + s.2
    let endM := e.1 * 60 + e.2
    genSlotsLoop slotDuration bufferTime endM breakTimes (endM - startM + 1) startM
  | _, _ => none

/-- Embedding of `generateTimeSlots`: the JavaScript formats each slot as it is
pushed; formatting the numeric slots afterwards produces the same list. -/
def generateTimeSlots (startTime endTime : String) (slotDuration bufferTime : Nat)
    (breakTimes : List BreakTime) : Option (List Slot) :=
  (generateTimeSlotsM startTime endTime slotDuration bufferTime breakTimes).map (·.map renderSlot)

/-! ### GET /availability/provider/:providerId/slots (controllers/availability.js lines 210-295) -/

inductive SlotsResult where
  | invalidDate
  | notConfigured
  | reasonedEmpty (message : String)
  | ok (slots : List Slot) (startTime endTime : String) (slotDuration bufferTime : Nat)
      (timezone : String)
  | serverError
deriving Repr, DecidableEq

/-- Effective window start: `exception.customStartTime` when present (the
empty string models an absent field, which is falsy), else the rule's. -/
def effStartTime (schedule : DaySchedule) (exc : DateException) : String :=
  if exc.customStartTime != "" then exc.customStartTime else schedule.startTime

/-- Effective window end, symmetric to `effStartTime`. -/
def effEndTime (schedule : DaySchedule) (exc : DateException) : String :=
  if exc.customEndTime != "" then exc.customEndTime else schedule.endTime

/-- Embedding of the slots endpoint from its date validation on.  `date = none`
models a query date failing `isNaN(requestedDate.getTime())`;
`availability` is the result of `Availability.findOne({ providerId })`. -/
def getSlotsCore (availability : Option Availability) (date : Option DateVal) : SlotsResult :=
  match date with
  | none => .invalidDate
  | some requestedDate =>
    match availability with
    | none => .notConfigured
    | some avail =>
      match avail.schedules.find? (fun s => s.dayOfWeek == requestedDate.dayOfWeek && s.isEnabled) with
      | none => .reasonedEmpty "No available slots for this day"
      | some schedule =>
        match avail.exceptions.find? (fun e => e.date.isoDate == requestedDate.isoDate) with
        | some exc =>
          if !exc.isAvailable then
            .reasonedEmpty (if exc.reason == "" then "Unavailable due to exception" else exc.reason)
          else
            match generateTimeSlots (effStartTime schedule exc) (effEndTime schedule exc)
                schedule.slotDuration schedule.bufferTime schedule.breakTimes with
            | none => .serverError
            | some slots =>
              .ok slots (effStartTime schedule exc) (effEndTime schedule exc)
                schedule.slotDuration schedule.bufferTime avail.timezone
        | none =>
          match generateTimeSlots schedule.startTime schedule.endTime schedule.slotDuration
              schedule.bufferTime schedule.breakTimes with
          | none => .serverError
          | some slots =>
            .ok slots schedule.startTime schedule.endTime schedule.slotDuration schedule.bufferTime
              avail.timezone

/-! ### The strict 12-hour time grammar `(0?[1-9]|1[0-2]):([0-5]\d)\s?(AM|PM)`, case-insensitive.
This regular expression appears verbatim in the schedule POST validation, in the
booking controller's timeSlot validation and in the exception-time and timeSlot
schema validators. -/

/-- Matcher for the strict minute group `([0-5]\d)` followed by `\s?(AM|PM)`. -/
def strictAfterColon (hours : Nat) : List Char → Option (Nat × Nat × Bool)
  | m1 :: m2 :: rest =>
    if ('0' ≤ m1 && m1 ≤ '5') && isDigitChar m2 then
      match rest with
      | c :: rest2 =>
        if jsWhitespace c then
          (parsePeriod rest2).map (fun pm => (hours, 10 * digitVal m1 + digitVal m2, pm))
        else
          (parsePeriod (c :: rest2)).map (fun pm => (hours, 10 * digitVal m1 + digitVal m2, pm))
      | [] => none
    else none
  | _ => none

/-- Matcher for the strict hour group `(0?[1-9]|1[0-2])` followed by the colon;
yields the 12-hour clock hour 1..12. -/
def strictTimeMatch : List Char → Option (Nat × Nat × Bool)
  | c1 :: c2 :: rest =>
    if c2 = ':' then
      if '1' ≤ c1 && c1 ≤ '9' then strictAfterColon (digitVal c1) rest else none
    else
      match rest with
      | c3 :: rest2 =>
        if c3 = ':' then
          if c1 = '0' then
            if '1' ≤ c2 && c2 ≤ '9' then strictAfterColon (digitVal c2) rest2 else none
          else if c1 = '1' then
            if '0' ≤ c2 && c2 ≤ '2' then strictAfterColon (10 + digitVal c2) rest2 else none
          else none
        else none
      | [] => none
  | _ => none

/-- Test of `/^(0?[1-9]|1[0-2]):([0-5]\d)\s?(AM|PM)$/i` against a string. -/
def timeRegexTest (s : String) : Bool := (strictTimeMatch s.data).isSome

/-! ### getAvailableSlotsInternal (booking controller, src/unnamed/part_013 lines 158-226) -/

/-- Embedding of the break test inside `getAvailableSlotsInternal`: an
hour-only comparison, with `slotEndHour` computed as
`currentTime.getHours() + Math.floor(slotDuration / 60)`. -/
def isDuringBreakInternal (cur slotDuration : Nat) : List BreakTime → Option Bool
  | [] => some false
  | bt :: rest =>
    match parseTimeString bt.startTime with
    | none => none
    | some bs =>
      if (cur / 60) % 24 ≥ bs.1 then
        match parseTimeString bt.endTime with
        | none => none
        | some be =>
          if (cur / 60) % 24 + slotDuration / 60 ≤ be.1 then some true
          else isDuringBreakInternal cur slotDuration rest
      else isDuringBreakInternal cur slotDuration rest

/-- The `while (currentTime < endDateTime)` loop of `getAvailableSlotsInternal`.
Unlike `genSlotsLoop`, the emission is guarded only by the break test: there is
no check that the slot ends by `endDateTime`. -/
def internalSlotsLoop (slotDuration bufferTime endM : Nat) (breakTimes : List BreakTime) :
    Nat → Nat → Option (List SlotM)
  | 0, _ => none
  | fuel + 1, cur =>
    if cur < endM then
      if slotDuration + bufferTime == 0 then none
      else
        match isDuringBreakInternal cur slotDuration breakTimes with
        | none => none
        | some during =>
          match internalSlotsLoop slotDuration bufferTime endM breakTimes fuel
              (cur + slotDuration + bufferTime) with
          | none => none
          | some rest =>
            if !during then some (⟨cur, cur + slotDuration, true⟩ :: rest) else some rest
    else some []

def findAvailability (avails : List Availability) (providerId : String) : Option Availability :=
  avails.find? (fun a => a.providerId == providerId)

/-- Embedding of `getAvailableSlotsInternal` up to formatting.  The body is
wrapped in `try/catch` with `catch` returning `[]`, so every thrown path
(modelled `none`) collapses to the empty list. -/
def getAvailableSlotsInternalM (avails : List Availability) (providerId : String)
    (requestedDate : DateVal) : List SlotM :=
  match findAvailability avails providerId with
  | none => []
  | some availability =>
    match availability.schedules.find?
        (fun s => s.dayOfWeek == requestedDate.dayOfWeek && s.isEnabled) with
    | none => []
    | some schedule =>
      let exc := availability.exceptions.find? (fun e => e.date.isoDate == requestedDate.isoDate)
      match exc with
      | some e =>
        if !e.isAvailable then []
        else
          let startTime := if e.customStartTime != "" then e.customStartTime else schedule.startTime
          let endTime := if e.customEndTime != "" then e.customEndTime else schedule.endTime
          internalSlotsFrom schedule startTime endTime
      | none => internalSlotsFrom schedule schedule.startTime schedule.endTime
where
  internalSlotsFrom (schedule : DaySchedule) (startTime endTime : String) : List SlotM :=
    match parseTimeString startTime, parseTimeString endTime with
    | some s, some e =>
      let startM := s.1 * 60 + s.2
      let endM := e.1 * 60 + e.2
      match internalSlotsLoop schedule.slotDuration schedule.bufferTime endM schedule.breakTimes
          (endM - startM + 1) startM with
      | none => []
      | some l => l
    | _, _ => []

/-- Embedding of `getAvailableSlotsInternal` as the booking handler consumes it:
formatted slots. -/
def getAvailableSlotsInternal (avails : List Availability) (providerId : String)
    (requestedDate : DateVal) : List Slot :=
  (getAvailableSlotsInternalM avails providerId requestedDate).map renderSlot

/-! ### Booking store and POST /bookings (src/unnamed/part_013 lines 34-152) -/

structure Service where
  id : String
  provider : String
deriving Repr, DecidableEq

/-- Booking document, following the timeSlot-bearing booking schema variant
(the one indexed on providerId/date/timeSlot for conflict detection).  BSON
dates compare as instants, so only the instant of the booking date is stored. -/
structure Booking where
  serviceId : String
  customerId : String
  providerId : String
  dateMs : Int
  timeSlot : String
  status : String
deriving Repr, DecidableEq

structure DB where
  services : List Service
  availabilities : List Availability
  bookings : List Booking
deriving Repr, DecidableEq

structure AuthUser where
  id : String
  role : String
deriving Repr, DecidableEq

/-- The `date` field of a booking request body: absent, a string `new Date`
cannot parse (an Invalid Date object, which is truthy and whose comparisons
are all false), or a parsed date. -/
inductive DateInput where
  | missing
  | invalid
  | valid (d : DateVal)
deriving Repr, DecidableEq

/-- Booking request body; absent string fields are modelled as `""`, matching
the handler's falsiness checks. -/
structure BookingReq where
  serviceId : String
  customerId : String
  providerId : String
  date : DateInput
  timeSlot : String
deriving Repr, DecidableEq

inductive BookingResp where
  | created (b : Booking)
  | badRequest
  | forbidden
  | conflict
  | serverError
deriving Repr, DecidableEq

def activeStatus (s : String) : Bool := s == "pending" || s == "confirmed"

/-- Predicate of the conflict query
`Booking.findOne({ providerId, date, timeSlot, status: { $in: ['pending', 'confirmed'] } })`. -/
def bookingConflict (b : Booking) (providerId : String) (dateMs : Int) (timeSlot : String) : Bool :=
  b.providerId == providerId && b.dateMs == dateMs && b.timeSlot == timeSlot && activeStatus b.status

/-- The conflict-detection read of the booking handler: one `findOne` against
the shared booking collection. -/
def conflictCheckDB (db : DB) (providerId : String) (dateMs : Int) (timeSlot : String) : Bool :=
  (db.bookings.find? (fun b => bookingConflict b providerId dateMs timeSlot)).isSome

def mkPendingBooking (req : BookingReq) (dv : DateVal) : Booking :=
  ⟨req.serviceId, req.customerId, req.providerId, dv.ms, req.timeSlot, "pending"⟩

/-- The `Booking.create` write of the booking handler: one insert into the
shared booking collection (the schema's own validators all pass for a document
that already passed the handler's checks). -/
def insertPendingBooking (db : DB) (req : BookingReq) (dv : DateVal) : DB :=
  { db with bookings := db.bookings ++ [mkPendingBooking req dv] }

/-- Embedding of POST /bookings: the full validation pipeline, the conflict
check, and the create.  `now` is the instant of `new Date()`. -/
def createBooking (user : AuthUser) (req : BookingReq) (now : Int) (db : DB) :
    BookingResp × DB :=
  if user.id != req.customerId && user.role != "admin" then (.forbidden, db)
  else if req.serviceId == "" || req.customerId == "" || req.providerId == "" ||
      req.date == .missing || req.timeSlot == "" then (.badRequest, db)
  else
    match db.services.find? (fun s => s.id == req.serviceId) with
    | none => (.badRequest, db)
    | some service =>
      if service.provider != req.providerId then (.badRequest, db)
      else if (match req.date with | .valid dv => decide (dv.ms ≤ now) | _ => false) then
        (.badRequest, db)
      else if !timeRegexTest req.timeSlot then (.badRequest, db)
      else if (findAvailability db.availabilities req.providerId).isNone then (.badRequest, db)
      else
        match req.date with
        | .missing => (.serverError, db)
        | .invalid => (.serverError, db)
        | .valid dv =>
          if !((getAvailableSlotsInternal db.availabilities req.providerId dv).any
              (fun slot => slot.startTime == req.timeSlot && slot.available))
          then (.badRequest, db)
          else if conflictCheckDB db req.providerId dv.ms req.timeSlot then (.conflict, db)
          else (.created (mkPendingBooking req dv), insertPendingBooking db req dv)

/-! ### Schedule POST and PATCH handlers (controllers/availability.js lines 55-175) -/

/-- A weekly-rule object in the POST/PATCH request body; `none` models an
absent (undefined or null) field. -/
structure ScheduleInput where
  dayOfWeek : Option Int
  isEnabled : Option Bool
  startTime : Option String
  endTime : Option String
  slotDuration : Option Int
  bufferTime : Option Int
  breakTimes : List BreakTime
deriving Repr, DecidableEq

/-- The POST handler's per-schedule validation: the four required fields are
present and the two times match the strict 12-hour grammar. -/
def validSchedulePost (s : ScheduleInput) : Bool :=
  s.dayOfWeek.isSome && s.startTime.isSome && s.endTime.isSome && s.slotDuration.isSome &&
  timeRegexTest (s.startTime.getD "") && timeRegexTest (s.endTime.getD "")

/-- Mongoose casting and validation of one ScheduleSchema subdocument:
required fields, defaults (`isEnabled` true, `slotDuration` 60, `bufferTime` 0)
and the numeric bounds; `none` models a ValidationError. -/
def castDaySchedule (s : ScheduleInput) : Option DaySchedule :=
  match s.dayOfWeek, s.startTime, s.endTime with
  | some dow, some st, some et =>
    if 0 ≤ dow ∧ dow ≤ 6 ∧ 15 ≤ s.slotDuration.getD 60 ∧ s.slotDuration.getD 60 ≤ 480 ∧
        0 ≤ s.bufferTime.getD 0 ∧ s.bufferTime.getD 0 ≤ 120 then
      some ⟨dow.toNat, s.isEnabled.getD true, st, et, (s.slotDuration.getD 60).toNat,
        (s.bufferTime.getD 0).toNat, s.breakTimes⟩
    else none
  | _, _, _ => none

def castSchedules : List ScheduleInput → Option (List DaySchedule)
  | [] => some []
  | x :: xs =>
    match castDaySchedule x, castSchedules xs with
    | some y, some ys => some (y :: ys)
    | _, _ => none

/-- Body of POST /availability/provider/:providerId (exceptions are taken
already typed; their own validators are not at issue here). -/
structure SetScheduleBody where
  schedules : List ScheduleInput
  exceptions : Option (List DateException)
  timezone : Option String
  advanceBookingDays : Option Int
deriving Repr, DecidableEq

/-- Value of `advanceBookingDays || 30`: the falsy value 0 (and an absent
field) both map to 30. -/
def effAdvanceBookingDays (o : Option Int) : Int :=
  match o with
  | some v => if v == 0 then 30 else v
  | none => 30

/-- Embedding of the POST handler from its schedules validation on: the result
is the availability document stored by the upsert, `none` when the request is
rejected (400) or mongoose validation fails (500); either way nothing is
stored. -/
def setSchedule (providerId : String) (body : SetScheduleBody) : Option Availability :=
  if body.schedules.isEmpty then none
  else if !(body.schedules.all validSchedulePost) then none
  else
    match castSchedules body.schedules with
    | none => none
    | some scheds =>
      if 0 ≤ effAdvanceBookingDays body.advanceBookingDays ∧
          effAdvanceBookingDays body.advanceBookingDays ≤ 365 then
        some ⟨providerId, scheds, body.exceptions.getD [], body.timezone.getD "Asia/Bahrain",
          (effAdvanceBookingDays body.advanceBookingDays).toNat⟩
      else none

/-- Body of PATCH /availability/provider/:providerId. -/
structure PatchScheduleBody where
  schedules : Option (List ScheduleInput)
  exceptions : Option (List DateException)
  timezone : Option String
  advanceBookingDays : Option Int
deriving Repr, DecidableEq

/-- Remaining PATCH update fields applied to the validated schedules, the tail
of the PATCH handler. -/
def patchApply (avail : Availability) (body : PatchScheduleBody) (scheds : List DaySchedule) :
    Option Availability :=
  match body.advanceBookingDays with
  | some v =>
    if 0 ≤ v ∧ v ≤ 365 then
      some ⟨avail.providerId, scheds, body.exceptions.getD avail.exceptions,
        body.timezone.getD avail.timezone, v.toNat⟩
    else none
  | none =>
    some ⟨avail.providerId, scheds, body.exceptions.getD avail.exceptions,
      body.timezone.getD avail.timezone, avail.advanceBookingDays⟩

/-- Embedding of the PATCH handler: requires an existing document, requires a
non-empty schedules array when one is supplied, and otherwise applies the
update through `findOneAndUpdate` with `runValidators` (so supplied schedules
and advanceBookingDays are validated, but no time-format check happens here). -/
def patchSchedule (existing : Option Availability) (body : PatchScheduleBody) :
    Option Availability :=
  match existing with
  | none => none
  | some avail =>
    match body.schedules with
    | some l =>
      if l.isEmpty then none
      else
        match castSchedules l with
        | none => none
        | some scheds => patchApply avail body scheds
    | none => patchApply avail body avail.schedules

/-- Route-level view of the slots endpoint: the handler reads the availability
collection (`Availability.findOne({ providerId })`) and nothing else from the
store. -/
def getSlotsRoute (db : DB) (providerId : String) (date : Option DateVal) : SlotsResult :=
  getSlotsCore (findAvailability db.availabilities providerId) date

/-! ### Shared concrete fixtures used by several theorems and witnesses -/

/-- A Monday rule 09:00 AM - 05:00 PM, 60-minute slots, no buffer, no breaks. -/
def mondayNineToFive : DaySchedule := ⟨1, true, "09:00 AM", "05:00 PM", 60, 0, []⟩

/-- A Monday (day-of-week 1). -/
def aMonday : DateVal := ⟨1766000000000, 1, "2026-10-19"⟩

/-- The eight numeric slots the 09:00-17:00 / 60 / 0 window generates. -/
def eightSlotsM : List SlotM :=
  [⟨540, 600, true⟩, ⟨600, 660, true⟩, ⟨660, 720, true⟩, ⟨720, 780, true⟩,
   ⟨780, 840, true⟩, ⟨840, 900, true⟩, ⟨900, 960, true⟩, ⟨960, 1020, true⟩]

/-- The same eight slots as the handler formats them. -/
def eightSlots : List Slot :=
  [⟨"9:00 AM", "10:00 AM", true⟩, ⟨"10:00 AM", "11:00 AM", true⟩,
   ⟨"11:00 AM", "12:00 PM", true⟩, ⟨"12:00 PM", "1:00 PM", true⟩,
   ⟨"1:00 PM", "2:00 PM", true⟩, ⟨"2:00 PM", "3:00 PM", true⟩,
   ⟨"3:00 PM", "4:00 PM", true⟩, ⟨"4:00 PM", "5:00 PM", true⟩]

/-! ### Claim theorems -/

/-- C3: for a provider whose only rule is the Monday 09:00 AM - 05:00 PM rule
with 60-minute slots, no buffer and no breaks, the slots endpoint returns,
for any Monday date, exactly the eight slots 9:00 AM through 4:00 PM, each 60
minutes long. -/
theorem getSlots_monday_nine_to_five_eight_slots (d : DateVal) (h : d.dayOfWeek = 1) :
    getSlotsCore (some ⟨"p3", [mondayNineToFive], [], "Asia/Bahrain", 30⟩) (some d) =
      .ok eightSlots "09:00 AM" "05:00 PM" 60 0 "Asia/Bahrain" := by
  obtain ⟨ms, dow, iso⟩ := d
  simp only at h
  subst h
  rfl

/-- Witness for C3 at a concrete Monday. -/
theorem getSlots_monday_nine_to_five_eight_slots_witness :
    aMonday.dayOfWeek = 1 ∧
    getSlotsCore (some ⟨"p3", [mondayNineToFive], [], "Asia/Bahrain", 30⟩) (some aMonday) =
      .ok eightSlots "09:00 AM" "05:00 PM" 60 0 "Asia/Bahrain" :=
  ⟨rfl, getSlots_monday_nine_to_five_eight_slots aMonday rfl⟩

/-- C4 (refuting evaluation): with a 12:00 PM - 12:30 PM break, the generator
still emits the 12:00 PM - 1:00 PM slot as available, although that slot
overlaps the break under exact minute-resolution interval overlap
(slotStart < breakEnd and breakStart < slotEnd): the hour-granularity break
test fails to exclude it. -/
theorem available_slot_overlaps_break :
    generateTimeSlotsM "09:00 AM" "05:00 PM" 60 0 [⟨"12:00 PM", "12:30 PM"⟩] =
      some eightSlotsM ∧
    (⟨720, 780, true⟩ : SlotM) ∈ eightSlotsM ∧
    parseTimeString "12:00 PM" = some (12, 0) ∧
    parseTimeString "12:30 PM" = some (12, 30) ∧
    720 < 12 * 60 + 30 ∧ 12 * 60 + 0 < 780 := by
  decide

/-- C5 (refuting evaluation): for a 09:00 AM - 05:30 PM window with 60-minute
slots, the booking controller's re-derivation emits a slot starting at 5:00 PM
and ending at 6:00 PM, past the effective end 5:30 PM; its loop lacks the
`cursor + slotDuration <= effectiveEnd` emission guard that the slots-endpoint
generator has (whose output for the same window is shown alongside). -/
theorem internal_slot_exceeds_effective_end :
    parseTimeString "05:30 PM" = some (17, 30) ∧
    getAvailableSlotsInternalM [⟨"p5", [⟨1, true, "09:00 AM", "05:30 PM", 60, 0, []⟩], [], "tz", 30⟩]
        "p5" ⟨0, 1, "2026-10-19"⟩ = eightSlotsM ++ [⟨1020, 1080, true⟩] ∧
    17 * 60 + 30 < 1080 ∧
    generateTimeSlotsM "09:00 AM" "05:30 PM" 60 0 [] = some eightSlotsM := by
  decide

/-- C6 (refuting evaluation): the slots endpoint never consults
`advanceBookingDays` - its result is invariant under changing that field - and
in particular a provider with `advanceBookingDays = 0` still gets a full slot
list for an arbitrarily distant future date. -/
theorem getSlots_ignores_advanceBookingDays :
    (∀ (av : Availability) (n : Nat) (d : Option DateVal),
        getSlotsCore (some { av with advanceBookingDays := n }) d = getSlotsCore (some av) d) ∧
    getSlotsRoute ⟨[], [⟨"p6", [mondayNineToFive], [], "tz", 0⟩], []⟩ "p6"
        (some ⟨99999999999999, 1, "2199-12-31"⟩) =
      .ok eightSlots "09:00 AM" "05:00 PM" 60 0 "tz" := by
  constructor
  · intro av n d
    cases d with
    | none => rfl
    | some dv => rfl
  · rfl

/-- C9 (counterexample): a setSchedule request whose single rule has
startTime 05:00 PM and endTime 09:00 AM - violating startTime < endTime, and a
fortiori slotDuration <= endTime - startTime - is accepted and stored as is. -/
theorem setSchedule_accepts_inverted_window :
    setSchedule "p9"
        ⟨[⟨some 1, none, some "05:00 PM", some "09:00 AM", some 60, none, []⟩],
          none, none, none⟩ =
      some ⟨"p9", [⟨1, true, "05:00 PM", "09:00 AM", 60, 0, []⟩], [], "Asia/Bahrain", 30⟩ ∧
    parseTimeString "05:00 PM" = some (17, 0) ∧
    parseTimeString "09:00 AM" = some (9, 0) ∧
    ¬(17 * 60 + 0 < 9 * 60 + 0) := by
  decide

lemma castSchedules_mem {l : List ScheduleInput} {out : List DaySchedule}
    (h : castSchedules l = some out) : ∀ r ∈ out, ∃ s ∈ l, castDaySchedule s = some r := by
  induction l generalizing out with
  | nil =>
    simp only [castSchedules, Option.some.injEq] at h
    subst h
    simp
  | cons x xs ih =>
    unfold castSchedules at h
    cases hx : castDaySchedule x with
    | none => rw [hx] at h; exact absurd h (by simp)
    | some y =>
      cases hxs : castSchedules xs with
      | none => rw [hx, hxs] at h; exact absurd h (by simp)
      | some ys =>
        rw [hx, hxs] at h
        obtain rfl := Option.some.inj h
        intro r hr
        rcases List.mem_cons.mp hr with rfl | hr'
        · exact ⟨x, List.mem_cons_self x xs, hx⟩
        · obtain ⟨s, hs, hcast⟩ := ih hxs r hr'
          exact ⟨s, List.mem_cons_of_mem x hs, hcast⟩

lemma castDaySchedule_bounds {s : ScheduleInput} {r : DaySchedule}
    (h : castDaySchedule s = some r) :
    r.dayOfWeek ≤ 6 ∧ 15 ≤ r.slotDuration ∧ r.slotDuration ≤ 480 ∧ r.bufferTime ≤ 120 ∧
    s.startTime = some r.startTime ∧ s.endTime = some r.endTime := by
  unfold castDaySchedule at h
  split at h
  · rename_i dow st et hdow hst het
    split at h
    · rename_i hb
      obtain rfl := Option.some.inj h
      refine ⟨?_, ?_, ?_, ?_, hst, het⟩ <;> simp only [] <;> omega
    · exact absurd h (by simp)
  · exact absurd h (by simp)

lemma patchApply_schedules {avail : Availability} {body : PatchScheduleBody}
    {scheds : List DaySchedule} {av : Availability} (h : patchApply avail body scheds = some av) :
    av.schedules = scheds := by
  unfold patchApply at h
  split at h
  · split at h
    · obtain rfl := Option.some.inj h; rfl
    · exact absurd h (by simp)
  · obtain rfl := Option.some.inj h; rfl

/-- C9 (amended): what the schedule handlers do enforce.  Every rule stored
through setSchedule has its required fields, times matching the strict
12-hour grammar, and the mongoose bounds (dayOfWeek 0-6, slotDuration 15-480,
bufferTime 0-120); every rule stored through patchSchedule either was already
in the existing document (when no schedules were supplied) or satisfies the
mongoose bounds.  Neither handler checks startTime < endTime or
slotDuration <= endTime - startTime. -/
theorem schedule_handlers_enforce_only_format_and_bounds :
    (∀ (pid : String) (body : SetScheduleBody) (av : Availability),
        setSchedule pid body = some av →
        ∀ r ∈ av.schedules,
          r.dayOfWeek ≤ 6 ∧ 15 ≤ r.slotDuration ∧ r.slotDuration ≤ 480 ∧ r.bufferTime ≤ 120 ∧
          timeRegexTest r.startTime = true ∧ timeRegexTest r.endTime = true) ∧
    (∀ (ex : Availability) (body : PatchScheduleBody) (av : Availability),
        patchSchedule (some ex) body = some av →
        ∀ r ∈ av.schedules,
          (body.schedules = none ∧ r ∈ ex.schedules) ∨
          (r.dayOfWeek ≤ 6 ∧ 15 ≤ r.slotDuration ∧ r.slotDuration ≤ 480 ∧
            r.bufferTime ≤ 120)) := by
  constructor
  · intro pid body av h r hr
    unfold setSchedule at h
    split at h
    · exact absurd h (by simp)
    · split at h
      · exact absurd h (by simp)
      · rename_i hempty hall
        cases hcast : castSchedules body.schedules with
        | none => rw [hcast] at h; exact absurd h (by simp)
        | some scheds =>
          rw [hcast] at h
          dsimp only at h
          split at h
          · obtain rfl := Option.some.inj h
            have hr' : r ∈ scheds := hr
            obtain ⟨s, hs, hsr⟩ := castSchedules_mem hcast r hr'
            obtain ⟨h1, h2, h3, h4, h5, h6⟩ := castDaySchedule_bounds hsr
            have hall' : body.schedules.all validSchedulePost = true := by
              simpa using hall
            have hvalid := List.all_eq_true.mp hall' s hs
            unfold validSchedulePost at hvalid
            simp only [Bool.and_eq_true] at hvalid
            obtain ⟨⟨⟨⟨⟨_, _⟩, _⟩, _⟩, hts⟩, hte⟩ := hvalid
            refine ⟨h1, h2, h3, h4, ?_, ?_⟩
            · rwa [h5, Option.getD_some] at hts
            · rwa [h6, Option.getD_some] at hte
          · exact absurd h (by simp)
  · intro ex body av h r hr
    unfold patchSchedule at h
    cases hbs : body.schedules with
    | some l =>
      rw [hbs] at h
      dsimp only at h
      split at h
      · exact absurd h (by simp)
      · cases hcast : castSchedules l with
        | none => rw [hcast] at h; exact absurd h (by simp)
        | some scheds =>
          rw [hcast] at h
          dsimp only at h
          right
          have hsch := patchApply_schedules h
          rw [hsch] at hr
          obtain ⟨s, _, hsr⟩ := castSchedules_mem hcast r hr
          obtain ⟨h1, h2, h3, h4, _, _⟩ := castDaySchedule_bounds hsr
          exact ⟨h1, h2, h3, h4⟩
    | none =>
      rw [hbs] at h
      dsimp only at h
      have hsch := patchApply_schedules h
      left
      exact ⟨rfl, by rw [hsch] at hr; exact hr⟩

/-- Witness for the amended C9 theorem at a concrete accepted request. -/
theorem schedule_handlers_enforce_checks_witness :
    (⟨1, true, "09:00 AM", "05:00 PM", 60, 0, []⟩ : DaySchedule) ∈
      (⟨"pw", [⟨1, true, "09:00 AM", "05:00 PM", 60, 0, []⟩], [], "Asia/Bahrain", 30⟩ :
        Availability).schedules ∧
    setSchedule "pw"
        ⟨[⟨some 1, none, some "09:00 AM", some "05:00 PM", some 60, none, []⟩],
          none, none, none⟩ =
      some ⟨"pw", [⟨1, true, "09:00 AM", "05:00 PM", 60, 0, []⟩], [], "Asia/Bahrain", 30⟩ ∧
    ((⟨1, true, "09:00 AM", "05:00 PM", 60, 0, []⟩ : DaySchedule).dayOfWeek ≤ 6 ∧
      15 ≤ (⟨1, true, "09:00 AM", "05:00 PM", 60, 0, []⟩ : DaySchedule).slotDuration ∧
      (⟨1, true, "09:00 AM", "05:00 PM", 60, 0, []⟩ : DaySchedule).slotDuration ≤ 480 ∧
      (⟨1, true, "09:00 AM", "05:00 PM", 60, 0, []⟩ : DaySchedule).bufferTime ≤ 120 ∧
      timeRegexTest (⟨1, true, "09:00 AM", "05:00 PM", 60, 0, []⟩ : DaySchedule).startTime = true ∧
      timeRegexTest (⟨1, true, "09:00 AM", "05:00 PM", 60, 0, []⟩ : DaySchedule).endTime = true) :=
  ⟨by decide, by decide,
    schedule_handlers_enforce_only_format_and_bounds.1 "pw"
      ⟨[⟨some 1, none, some "09:00 AM", some "05:00 PM", some 60, none, []⟩], none, none, none⟩
      ⟨"pw", [⟨1, true, "09:00 AM", "05:00 PM", 60, 0, []⟩], [], "Asia/Bahrain", 30⟩
      (by decide) ⟨1, true, "09:00 AM", "05:00 PM", 60, 0, []⟩ (by decide)⟩

/-! ### Fixtures for the booking race -/

def raceAvailability : Availability := ⟨"prov", [mondayNineToFive], [], "Asia/Bahrain", 30⟩

def raceDB : DB := ⟨[⟨"svc", "prov"⟩], [raceAvailability], []⟩

def raceReqA : BookingReq := ⟨"svc", "custA", "prov", .valid aMonday, "10:00 AM"⟩

def raceReqB : BookingReq := ⟨"svc", "custB", "prov", .valid aMonday, "10:00 AM"⟩

/-- C2 (refuting evaluation): two requests for the same
(provider, date, 10:00 AM) both pass the whole validation pipeline against the
initial store (each would succeed if run alone, as the first two conjuncts
show).  The handler's conflict detection is a `findOne` read followed, after
an await boundary, by a separate `create` write, and the booking schema's
(providerId, date, timeSlot) index is not unique, so in the interleaving where
both reads run before either write each read sees no conflict (third
conjunct), both writes are applied, and the store ends with two active
bookings for the same key (fourth conjunct): both callers receive success,
not one success and one Conflict. -/
theorem concurrent_createBooking_double_booking :
    createBooking ⟨"custA", "customer"⟩ raceReqA 0 raceDB =
      (.created (mkPendingBooking raceReqA aMonday), insertPendingBooking raceDB raceReqA aMonday) ∧
    createBooking ⟨"custB", "customer"⟩ raceReqB 0 raceDB =
      (.created (mkPendingBooking raceReqB aMonday), insertPendingBooking raceDB raceReqB aMonday) ∧
    conflictCheckDB raceDB "prov" aMonday.ms "10:00 AM" = false ∧
    ((insertPendingBooking (insertPendingBooking raceDB raceReqA aMonday) raceReqB
        aMonday).bookings.filter
          (fun b => bookingConflict b "prov" aMonday.ms "10:00 AM")).length = 2 := by
  decide

/-! ### C1: conflict rejection and the at-most-one-active-booking invariant -/

/-- The core invariant: at most one booking in status pending or confirmed per
(providerId, date, timeSlot). -/
def atMostOneActive (db : DB) : Prop :=
  ∀ (providerId : String) (dateMs : Int) (timeSlot : String),
    (db.bookings.filter (fun b => bookingConflict b providerId dateMs timeSlot)).length ≤ 1

/-- Sequential composition of createBooking calls (each element carries the
authenticated caller, the body, and the request instant). -/
def runBookings (db : DB) (calls : List (AuthUser × BookingReq × Int)) : DB :=
  calls.foldl (fun d c => (createBooking c.1 c.2.1 c.2.2 d).2) db

/-- The request passes every pipeline stage before the conflict check:
authorization, required fields, service lookup and ownership, future date,
timeSlot grammar, configured availability, and slot legality. -/
def reachesConflictCheck (u : AuthUser) (req : BookingReq) (now : Int) (db : DB)
    (dv : DateVal) : Prop :=
  (u.id = req.customerId ∨ u.role = "admin") ∧
  req.serviceId ≠ "" ∧ req.customerId ≠ "" ∧ req.providerId ≠ "" ∧ req.timeSlot ≠ "" ∧
  (∃ sv : Service, db.services.find? (fun s => s.id == req.serviceId) = some sv ∧
    sv.provider = req.providerId) ∧
  now < dv.ms ∧
  timeRegexTest req.timeSlot = true ∧
  (findAvailability db.availabilities req.providerId).isSome = true ∧
  (getAvailableSlotsInternal db.availabilities req.providerId dv).any
      (fun slot => slot.startTime == req.timeSlot && slot.available) = true

lemma createBooking_db_eq_or_insert (u : AuthUser) (req : BookingReq) (now : Int) (db : DB) :
    (createBooking u req now db).2 = db ∨
    ∃ dv, req.date = .valid dv ∧
      conflictCheckDB db req.providerId dv.ms req.timeSlot = false ∧
      createBooking u req now db =
        (.created (mkPendingBooking req dv), insertPendingBooking db req dv) := by
  unfold createBooking
  repeat' split
  all_goals try exact Or.inl rfl
  rename_i dv heq hslot hconf
  exact Or.inr ⟨dv, heq, Bool.eq_false_iff.mpr hconf, rfl⟩

lemma filter_nil_of_conflictCheck_false {db : DB} {pid : String} {dms : Int} {ts : String}
    (h : conflictCheckDB db pid dms ts = false) :
    db.bookings.filter (fun b => bookingConflict b pid dms ts) = [] := by
  unfold conflictCheckDB at h
  cases hfind : db.bookings.find? (fun b => bookingConflict b pid dms ts) with
  | some x => rw [hfind] at h; simp at h
  | none =>
    have := List.find?_eq_none.mp hfind
    exact List.filter_eq_nil_iff.mpr this

lemma mkPendingBooking_conflict_key {req : BookingReq} {dv : DateVal} {p : String} {dms : Int}
    {ts : String} (h : bookingConflict (mkPendingBooking req dv) p dms ts = true) :
    p = req.providerId ∧ dms = dv.ms ∧ ts = req.timeSlot := by
  unfold bookingConflict mkPendingBooking activeStatus at h
  simp only [Bool.and_eq_true, beq_iff_eq] at h
  exact ⟨h.1.1.1.symm, h.1.1.2.symm, h.1.2.symm⟩

lemma createBooking_preserves_atMostOneActive (u : AuthUser) (req : BookingReq) (now : Int)
    (db : DB) (h : atMostOneActive db) : atMostOneActive (createBooking u req now db).2 := by
  rcases createBooking_db_eq_or_insert u req now db with heq | ⟨dv, _, hcc, heq⟩
  · rw [heq]; exact h
  · rw [heq]
    intro p dms ts
    show ((insertPendingBooking db req dv).bookings.filter
      (fun b => bookingConflict b p dms ts)).length ≤ 1
    unfold insertPendingBooking
    simp only [List.filter_append, List.length_append]
    by_cases hb : bookingConflict (mkPendingBooking req dv) p dms ts = true
    · obtain ⟨rfl, rfl, rfl⟩ := mkPendingBooking_conflict_key hb
      rw [filter_nil_of_conflictCheck_false hcc]
      simp [hb]
    · have hnil : List.filter (fun b => bookingConflict b p dms ts) [mkPendingBooking req dv]
          = [] := by
        simp [Bool.eq_false_iff.mpr hb]
      rw [hnil]
      simpa using h p dms ts

lemma runBookings_preserves (calls : List (AuthUser × BookingReq × Int)) :
    ∀ db : DB, atMostOneActive db → atMostOneActive (runBookings db calls) := by
  induction calls with
  | nil => intro db h; exact h
  | cons c cs ih =>
    intro db h
    exact ih _ (createBooking_preserves_atMostOneActive c.1 c.2.1 c.2.2 db h)

/-- C1: when an active (pending or confirmed) booking for the request's
(providerId, date, timeSlot) triple already exists, createBooking leaves the
booking store unchanged, and if the request passes every earlier pipeline
stage the response is the 409 Conflict; consequently every sequence of
createBooking calls preserves the at-most-one-active-booking-per-key
invariant. -/
theorem createBooking_conflict_rejected_and_at_most_one_active :
    (∀ (u : AuthUser) (req : BookingReq) (now : Int) (db : DB) (dv : DateVal),
        req.date = .valid dv →
        conflictCheckDB db req.providerId dv.ms req.timeSlot = true →
        (createBooking u req now db).2 = db ∧
        (reachesConflictCheck u req now db dv → (createBooking u req now db).1 = .conflict)) ∧
    (∀ (db : DB) (calls : List (AuthUser × BookingReq × Int)),
        atMostOneActive db → atMostOneActive (runBookings db calls)) := by
  constructor
  · intro u req now db dv hdate hcc
    constructor
    · rcases createBooking_db_eq_or_insert u req now db with heq | ⟨dv', hdate', hcc', _⟩
      · exact heq
      · have hd : dv' = dv := by
          have := hdate.symm.trans hdate'
          exact (DateInput.valid.inj this).symm
        rw [hd] at hcc'
        rw [hcc] at hcc'
        exact absurd hcc' (by simp)
    · intro hreach
      obtain ⟨hauth, hsid, hcid, hpid, hts, ⟨sv, hfind, hprov⟩, hfut, hregex, havail, hslots⟩ :=
        hreach
      have hauth' : (u.id != req.customerId && u.role != "admin") = false := by
        rcases hauth with h | h <;> simp [h]
      have hsid' : (req.serviceId == "") = false := beq_eq_false_iff_ne.mpr hsid
      have hcid' : (req.customerId == "") = false := beq_eq_false_iff_ne.mpr hcid
      have hpid' : (req.providerId == "") = false := beq_eq_false_iff_ne.mpr hpid
      have hts' : (req.timeSlot == "") = false := beq_eq_false_iff_ne.mpr hts
      have hprov' : (sv.provider != req.providerId) = false := by simp [hprov]
      have hfut' : ¬(dv.ms ≤ now) := not_le.mpr hfut
      obtain ⟨av, hav⟩ := Option.isSome_iff_exists.mp havail
      unfold createBooking
      rw [hdate]
      simp [hauth', hsid', hcid', hpid', hts', hfind, hprov', hfut', hregex, hav, hslots, hcc]
  · intro db calls h
    exact runBookings_preserves calls db h

/-- Store already holding an active 10:00 AM booking for the contested key. -/
def conflictDB : DB := ⟨[⟨"svc", "prov"⟩], [raceAvailability], [mkPendingBooking raceReqB aMonday]⟩

/-- Witness for C1 at a concrete conflicting request and a concrete call
sequence. -/
theorem createBooking_conflict_rejected_witness :
    raceReqA.date = .valid aMonday ∧
    conflictCheckDB conflictDB raceReqA.providerId aMonday.ms raceReqA.timeSlot = true ∧
    (createBooking ⟨"custA", "customer"⟩ raceReqA 0 conflictDB).2 = conflictDB ∧
    (createBooking ⟨"custA", "customer"⟩ raceReqA 0 conflictDB).1 = .conflict ∧
    atMostOneActive (runBookings ⟨[], [], []⟩ [(⟨"custA", "customer"⟩, raceReqA, 0)]) := by
  have h := createBooking_conflict_rejected_and_at_most_one_active
  have hempty : atMostOneActive (⟨[], [], []⟩ : DB) := by
    intro p dms ts
    simp
  have hreach : reachesConflictCheck ⟨"custA", "customer"⟩ raceReqA 0 conflictDB aMonday :=
    ⟨Or.inl rfl, by decide, by decide, by decide, by decide,
      ⟨⟨"svc", "prov"⟩, by decide, rfl⟩, by decide, by decide, by decide, by decide⟩
  have hmain := h.1 ⟨"custA", "customer"⟩ raceReqA 0 conflictDB aMonday rfl (by decide)
  exact ⟨rfl, by decide, hmain.1, hmain.2 hreach,
    h.2 ⟨[], [], []⟩ [(⟨"custA", "customer"⟩, raceReqA, 0)] hempty⟩

/-! ### C7: ordering and non-overlap of generated slots -/

lemma genSlotsLoop_bounds (slotDuration bufferTime endM : Nat) (bts : List BreakTime) :
    ∀ (fuel cur : Nat) (l : List SlotM), genSlotsLoop slotDuration bufferTime endM bts fuel cur
        = some l →
      (∀ s ∈ l, cur ≤ s.startMin ∧ s.endMin = s.startMin + slotDuration) ∧
      l.Pairwise (fun s1 s2 => s1.startMin + slotDuration + bufferTime ≤ s2.startMin) := by
  intro fuel
  induction fuel with
  | zero =>
    intro cur l h
    exact absurd h (by simp [genSlotsLoop])
  | succ n ih =>
    intro cur l h
    unfold genSlotsLoop at h
    split at h
    · split at h
      · exact absurd h (by simp)
      · split at h
        · exact absurd h (by simp)
        · rename_i during hbr
          split at h
          · exact absurd h (by simp)
          · rename_i rest hrec
            obtain ⟨hall, hpw⟩ := ih _ _ hrec
            split at h
            · obtain rfl := Option.some.inj h
              constructor
              · intro s hs
                rcases List.mem_cons.mp hs with rfl | hs'
                · exact ⟨le_refl _, rfl⟩
                · have hmem := hall s hs'
                  exact ⟨by omega, hmem.2⟩
              · refine List.Pairwise.cons ?_ hpw
                intro s hs
                have hmem := hall s hs
                simp only []
                omega
            · obtain rfl := Option.some.inj h
              refine ⟨?_, hpw⟩
              intro s hs
              have hmem := hall s hs
              exact ⟨by omega, hmem.2⟩
    · obtain rfl := Option.some.inj h
      exact ⟨by simp, by simp⟩

/-- C7: the slot sequence produced by the generator is strictly ordered by
start time, and any two distinct slots do not overlap (each slot ends no later
than the next begins; bufferMinutes is a natural number, hence nonnegative). -/
theorem generateTimeSlots_sorted_nonoverlapping
    (startTime endTime : String) (slotDuration bufferTime : Nat) (bts : List BreakTime)
    (l : List SlotM) (hd : 1 ≤ slotDuration)
    (h : generateTimeSlotsM startTime endTime slotDuration bufferTime bts = some l) :
    List.Pairwise (fun s1 s2 => s1.startMin < s2.startMin ∧ s1.endMin ≤ s2.startMin) l := by
  unfold generateTimeSlotsM at h
  split at h
  · obtain ⟨hall, hpw⟩ := genSlotsLoop_bounds slotDuration bufferTime _ bts _ _ _ h
    refine hpw.imp_of_mem ?_
    intro a b ha hb hr
    have hea := (hall a ha).2
    constructor <;> omega
  · exact absurd h (by simp)

/-- Witness for C7 at the Monday 09:00-17:00 schedule. -/
theorem generateTimeSlots_sorted_nonoverlapping_witness :
    1 ≤ 60 ∧
    List.Pairwise (fun s1 s2 : SlotM => s1.startMin < s2.startMin ∧ s1.endMin ≤ s2.startMin)
      eightSlotsM :=
  ⟨by decide,
    generateTimeSlots_sorted_nonoverlapping "09:00 AM" "05:00 PM" 60 0 [] eightSlotsM
      (by decide) (by decide)⟩

/-! ### C10: slot generation never consults the booking store -/

lemma genSlotsLoop_available (slotDuration bufferTime endM : Nat) (bts : List BreakTime) :
    ∀ (fuel cur : Nat) (l : List SlotM),
      genSlotsLoop slotDuration bufferTime endM bts fuel cur = some l →
      ∀ s ∈ l, s.available = true := by
  intro fuel
  induction fuel with
  | zero =>
    intro cur l h
    exact absurd h (by simp [genSlotsLoop])
  | succ n ih =>
    intro cur l h
    unfold genSlotsLoop at h
    split at h
    · split at h
      · exact absurd h (by simp)
      · split at h
        · exact absurd h (by simp)
        · split at h
          · exact absurd h (by simp)
          · rename_i rest hrec
            split at h
            · obtain rfl := Option.some.inj h
              intro s hs
              rcases List.mem_cons.mp hs with rfl | hs'
              · rfl
              · exact ih _ _ hrec s hs'
            · obtain rfl := Option.some.inj h
              exact ih _ _ hrec
    · obtain rfl := Option.some.inj h
      simp

lemma generateTimeSlots_all_available {startTime endTime : String}
    {slotDuration bufferTime : Nat} {bts : List BreakTime} {slots : List Slot}
    (h : generateTimeSlots startTime endTime slotDuration bufferTime bts = some slots) :
    ∀ s ∈ slots, s.available = true := by
  unfold generateTimeSlots at h
  cases hm : generateTimeSlotsM startTime endTime slotDuration bufferTime bts with
  | none => rw [hm] at h; exact absurd h (by simp)
  | some lm =>
    rw [hm] at h
    obtain rfl := Option.some.inj (by simpa using h)
    intro s hs
    obtain ⟨m, hmem, rfl⟩ := List.mem_map.mp hs
    unfold generateTimeSlotsM at hm
    split at hm
    · exact genSlotsLoop_available _ _ _ _ _ _ _ hm m hmem
    · exact absurd hm (by simp)

/-- C10: the slots endpoint reads only the availability collection - its
result is unchanged under any change to the booking store - and every slot it
emits carries `available = true`, so a slot is reported available even when an
active booking for that provider, date and start time already exists. -/
theorem getSlots_booking_independent_and_always_available :
    (∀ (db1 db2 : DB) (pid : String) (d : Option DateVal),
        db1.availabilities = db2.availabilities →
        getSlotsRoute db1 pid d = getSlotsRoute db2 pid d) ∧
    (∀ (av : Option Availability) (d : Option DateVal) (slots : List Slot)
        (st et : String) (sd bt : Nat) (tz : String),
        getSlotsCore av d = .ok slots st et sd bt tz → ∀ s ∈ slots, s.available = true) := by
  constructor
  · intro db1 db2 pid d hav
    unfold getSlotsRoute findAvailability
    rw [hav]
  · intro av d slots st et sd bt tz h s hs
    unfold getSlotsCore at h
    split at h
    · exact absurd h (by simp)
    · split at h
      · exact absurd h (by simp)
      · split at h
        · exact absurd h (by simp)
        · split at h
          · split at h
            · exact absurd h (by simp)
            · split at h
              · exact absurd h (by simp)
              · rename_i slots' hgen
                obtain ⟨rfl, _⟩ := SlotsResult.ok.inj h
                exact generateTimeSlots_all_available hgen s hs
          · split at h
            · exact absurd h (by simp)
            · rename_i slots' hgen
              obtain ⟨rfl, _⟩ := SlotsResult.ok.inj h
              exact generateTimeSlots_all_available hgen s hs

/-- Witness for C10: two stores sharing the availability collection, the
second containing an active booking for (prov, Monday, 9:00 AM); the endpoint
output is identical and the 9:00 AM slot is still emitted with
available = true. -/
theorem getSlots_booking_independent_witness :
    (⟨[], [raceAvailability], []⟩ : DB).availabilities =
      (⟨[], [raceAvailability],
        [⟨"svc", "custB", "prov", aMonday.ms, "9:00 AM", "pending"⟩]⟩ : DB).availabilities ∧
    getSlotsRoute ⟨[], [raceAvailability], []⟩ "prov" (some aMonday) =
      getSlotsRoute ⟨[], [raceAvailability],
        [⟨"svc", "custB", "prov", aMonday.ms, "9:00 AM", "pending"⟩]⟩ "prov" (some aMonday) ∧
    getSlotsRoute ⟨[], [raceAvailability],
        [⟨"svc", "custB", "prov", aMonday.ms, "9:00 AM", "pending"⟩]⟩ "prov" (some aMonday) =
      .ok eightSlots "09:00 AM" "05:00 PM" 60 0 "Asia/Bahrain" ∧
    (⟨"9:00 AM", "10:00 AM", true⟩ : Slot) ∈ eightSlots ∧
    (⟨"9:00 AM", "10:00 AM", true⟩ : Slot).available = true := by
  refine ⟨rfl, ?_, by decide, by decide, ?_⟩
  · exact getSlots_booking_independent_and_always_available.1 _ _ "prov" (some aMonday) rfl
  · exact getSlots_booking_independent_and_always_available.2
      (some raceAvailability) (some aMonday) eightSlots "09:00 AM" "05:00 PM" 60 0 "Asia/Bahrain"
      (by decide) ⟨"9:00 AM", "10:00 AM", true⟩ (by decide)

/-! ### C8: round-trip of valid 12-hour time strings through parse and format -/

/-- Upper-casing of the period letters (the effect of `toUpperCase` on the
characters the grammar admits). -/
def upChar (c : Char) : Char :=
  if c == 'a' then 'A' else if c == 'p' then 'P' else if c == 'm' then 'M' else c

/-- Normalized minute-and-period tail: the two minute digits, exactly one
space, and the upper-cased period. -/
def normTail : List Char → List Char
  | m1 :: m2 :: rest2 =>
    m1 :: m2 :: ' ' ::
      (match rest2 with
       | [p, q] => [upChar p, upChar q]
       | [_, p, q] => [upChar p, upChar q]
       | _ => [])
  | l => l

/-- Normal form of a string of the 12-hour grammar, as the claim describes it:
no leading zero on the hour, exactly one space before the period, upper-case
AM/PM. -/
def normalize (t : String) : String :=
  match t.data with
  | c1 :: c2 :: rest =>
    if c2 = ':' then ⟨c1 :: ':' :: normTail rest⟩
    else
      match rest with
      | c3 :: rest2 =>
        if c3 = ':' then
          if c1 = '0' then ⟨c2 :: ':' :: normTail rest2⟩
          else ⟨c1 :: c2 :: ':' :: normTail rest2⟩
        else ⟨c1 :: c2 :: c3 :: rest2⟩
      | [] => ⟨[c1, c2]⟩
  | l => ⟨l⟩

lemma char_toNat_le_of_le {a b : Char} (h : a ≤ b) : a.toNat ≤ b.toNat := by
  rw [Char.le_def] at h
  exact h

lemma digitToChar_digitVal {c : Char} (h1 : '0' ≤ c) (_h2 : c ≤ '9') :
    digitToChar (digitVal c) = c := by
  have h48 : 48 ≤ c.toNat := char_toNat_le_of_le h1
  unfold digitToChar digitVal
  rw [Nat.add_sub_cancel' h48]
  exact Char.ofNat_toNat c

lemma digitVal_le_of_le {c m : Char} (h : c ≤ m) : digitVal c ≤ digitVal m := by
  have := char_toNat_le_of_le h
  unfold digitVal
  omega

lemma pad2_digits {m1 m2 : Char} (h1 : '0' ≤ m1) (h2 : m1 ≤ '9') (h3 : '0' ≤ m2)
    (h4 : m2 ≤ '9') : pad2 (10 * digitVal m1 + digitVal m2) = [m1, m2] := by
  have b1 : 48 ≤ m1.toNat := char_toNat_le_of_le h1
  have b2 : m1.toNat ≤ 57 := char_toNat_le_of_le h2
  have b3 : 48 ≤ m2.toNat := char_toNat_le_of_le h3
  have b4 : m2.toNat ≤ 57 := char_toNat_le_of_le h4
  have e1 : (10 * digitVal m1 + digitVal m2) / 10 = digitVal m1 := by
    unfold digitVal
    omega
  have e2 : (10 * digitVal m1 + digitVal m2) % 10 = digitVal m2 := by
    unfold digitVal
    omega
  unfold pad2
  rw [e1, e2, digitToChar_digitVal h1 h2, digitToChar_digitVal h3 h4]

lemma natToChars_digitVal {c : Char} (h1 : '0' ≤ c) (h2 : c ≤ '9') :
    natToChars (digitVal c) = [c] := by
  have b2 : c.toNat ≤ 57 := char_toNat_le_of_le h2
  unfold natToChars
  rw [if_pos (by unfold digitVal; omega), digitToChar_digitVal h1 h2]

/-- Everything the strict tail matcher guarantees: the permissive matcher
agrees, the minute digits are in range, the minutes value decomposes over
them, and the normalized tail is the two digits, one space, and the
upper-cased period. -/
lemma strictAfterColon_spec {hr : Nat} {rest : List Char} {mo : Nat × Nat × Bool}
    (h : strictAfterColon hr rest = some mo) :
    parseAfterColon hr rest = some mo ∧
    ∃ m1 m2, '0' ≤ m1 ∧ m1 ≤ '5' ∧ '0' ≤ m2 ∧ m2 ≤ '9' ∧
      mo.1 = hr ∧ mo.2.1 = 10 * digitVal m1 + digitVal m2 ∧
      normTail rest =
        m1 :: m2 :: ' ' :: [if mo.2.2 then 'P' else 'A', 'M'] := by
  match rest with
  | [] => exact absurd h (by simp [strictAfterColon])
  | [_] => exact absurd h (by simp [strictAfterColon])
  | m1 :: m2 :: rest2 =>
    unfold strictAfterColon at h
    dsimp only at h
    by_cases hdig : (('0' ≤ m1 && m1 ≤ '5') && isDigitChar m2) = true
    case neg => rw [if_neg hdig] at h; exact absurd h (by simp)
    case pos =>
      rw [if_pos hdig] at h
      simp only [Bool.and_eq_true, decide_eq_true_eq] at hdig
      obtain ⟨⟨hm1a, hm1b⟩, hm2⟩ := hdig
      simp only [isDigitChar, Bool.and_eq_true, decide_eq_true_eq] at hm2
      obtain ⟨hm2a, hm2b⟩ := hm2
      have hm1b' : m1 ≤ '9' := le_trans hm1b (by decide)
      have hdig' : (isDigitChar m1 && isDigitChar m2) = true := by
        simp only [isDigitChar, Bool.and_eq_true, decide_eq_true_eq]
        exact ⟨⟨hm1a, hm1b'⟩, hm2a, hm2b⟩
      match rest2 with
      | [] => exact absurd h (by simp)
      | c :: rest3 =>
        dsimp only at h
        by_cases hws : jsWhitespace c = true
        · rw [if_pos hws] at h
          match rest3 with
          | [] => exact absurd h (by simp [parsePeriod])
          | [_] => exact absurd h (by simp [parsePeriod])
          | _ :: _ :: _ :: _ => exact absurd h (by simp [parsePeriod])
          | [p, q] =>
            unfold parsePeriod at h
            dsimp only at h
            by_cases hq : (q == 'M' || q == 'm') = true
            case neg => rw [if_neg hq] at h; exact absurd h (by simp)
            case pos =>
              rw [if_pos hq] at h
              refine ⟨?_, ?_⟩
              · unfold parseAfterColon
                dsimp only
                rw [if_pos hdig', if_pos hws]
                unfold parsePeriod
                dsimp only
                rw [if_pos hq]
                exact h
              · refine ⟨m1, m2, hm1a, hm1b, hm2a, hm2b, ?_⟩
                split at h
                · rename_i hp
                  obtain rfl : (hr, 10 * digitVal m1 + digitVal m2, false) = mo := by
                    simpa using h
                  refine ⟨rfl, rfl, ?_⟩
                  simp only [Bool.or_eq_true, beq_iff_eq] at hq hp
                  simp only [normTail]
                  rcases hq with rfl | rfl <;> rcases hp with rfl | rfl <;> rfl
                · split at h
                  · rename_i hpf hp
                    obtain rfl : (hr, 10 * digitVal m1 + digitVal m2, true) = mo := by
                      simpa using h
                    refine ⟨rfl, rfl, ?_⟩
                    simp only [Bool.or_eq_true, beq_iff_eq] at hq hp
                    simp only [normTail]
                    rcases hq with rfl | rfl <;> rcases hp with rfl | rfl <;> rfl
                  · exact absurd h (by simp)
        · rw [if_neg hws] at h
          match rest3 with
          | [] => exact absurd h (by simp [parsePeriod])
          | _ :: _ :: _ => exact absurd h (by simp [parsePeriod])
          | [q] =>
            unfold parsePeriod at h
            dsimp only at h
            by_cases hq : (q == 'M' || q == 'm') = true
            case neg => rw [if_neg hq] at h; exact absurd h (by simp)
            case pos =>
              rw [if_pos hq] at h
              refine ⟨?_, ?_⟩
              · unfold parseAfterColon
                dsimp only
                rw [if_pos hdig', if_neg hws]
                unfold parsePeriod
                dsimp only
                rw [if_pos hq]
                exact h
              · refine ⟨m1, m2, hm1a, hm1b, hm2a, hm2b, ?_⟩
                split at h
                · rename_i hp
                  obtain rfl : (hr, 10 * digitVal m1 + digitVal m2, false) = mo := by
                    simpa using h
                  refine ⟨rfl, rfl, ?_⟩
                  simp only [Bool.or_eq_true, beq_iff_eq] at hq hp
                  simp only [normTail]
                  rcases hq with rfl | rfl <;> rcases hp with rfl | rfl <;> rfl
                · split at h
                  · rename_i hpf hp
                    obtain rfl : (hr, 10 * digitVal m1 + digitVal m2, true) = mo := by
                      simpa using h
                    refine ⟨rfl, rfl, ?_⟩
                    simp only [Bool.or_eq_true, beq_iff_eq] at hq hp
                    simp only [normTail]
                    rcases hq with rfl | rfl <;> rcases hp with rfl | rfl <;> rfl
                  · exact absurd h (by simp)

lemma digitVal_le_9 {c : Char} (h : c ≤ '9') : digitVal c ≤ 9 := by
  have hb : c.toNat ≤ 57 := char_toNat_le_of_le h
  unfold digitVal
  omega

lemma digitVal_le_5 {c : Char} (h : c ≤ '5') : digitVal c ≤ 5 := by
  have hb : c.toNat ≤ 53 := char_toNat_le_of_le h
  unfold digitVal
  omega

lemma one_le_digitVal {c : Char} (h : '1' ≤ c) : 1 ≤ digitVal c := by
  have hb : 49 ≤ c.toNat := char_toNat_le_of_le h
  unfold digitVal
  omega

lemma zero_le_char_of_one_le {c : Char} (h : '1' ≤ c) : '0' ≤ c :=
  le_trans (by decide) h

lemma formatTimeString_spec (hr m : Nat) (pm : Bool) (hh1 : 1 ≤ hr) (hh2 : hr ≤ 12)
    (hmb : m ≤ 59) :
    formatTimeString ((if pm && hr != 12 then hr + 12 else if !pm && hr == 12 then 0 else hr)
        * 60 + m) =
      ⟨natToChars hr ++ ':' :: (pad2 m ++ ' ' :: [if pm then 'P' else 'A', 'M'])⟩ := by
  cases pm <;> by_cases h12 : hr = 12
  · subst h12
    have hite : ((if (false : Bool) && (12 : Nat) != 12 then 12 + 12
        else if !false && (12 : Nat) == 12 then 0 else 12) : Nat) = 0 := by decide
    rw [hite]
    unfold formatTimeString
    have e1 : (0 * 60 + m) / 60 % 24 = 0 := by omega
    have e2 : (0 * 60 + m) % 60 = m := by omega
    rw [e1, e2]
    norm_num
  · have hite : ((if (false : Bool) && hr != 12 then hr + 12
        else if !false && hr == 12 then 0 else hr) : Nat) = hr := by
      simp [h12]
    rw [hite]
    unfold formatTimeString
    have e1 : (hr * 60 + m) / 60 % 24 = hr := by omega
    have e2 : (hr * 60 + m) % 60 = m := by omega
    rw [e1, e2]
    dsimp only
    have hper : ¬(hr ≥ 12) := by omega
    rw [if_neg hper]
    have hz : (hr == 0) = false := by simp; omega
    rw [hz]
    have hgt : ¬(hr > 12) := by omega
    simp only [Bool.false_eq_true, if_false, if_neg hgt]
  · subst h12
    have hite : ((if (true : Bool) && (12 : Nat) != 12 then 12 + 12
        else if !true && (12 : Nat) == 12 then 0 else 12) : Nat) = 12 := by decide
    rw [hite]
    unfold formatTimeString
    have e1 : (12 * 60 + m) / 60 % 24 = 12 := by omega
    have e2 : (12 * 60 + m) % 60 = m := by omega
    rw [e1, e2]
    norm_num
  · have hite : ((if (true : Bool) && hr != 12 then hr + 12
        else if !true && hr == 12 then 0 else hr) : Nat) = hr + 12 := by
      simp [h12]
    rw [hite]
    unfold formatTimeString
    have e1 : ((hr + 12) * 60 + m) / 60 % 24 = hr + 12 := by omega
    have e2 : ((hr + 12) * 60 + m) % 60 = m := by omega
    rw [e1, e2]
    dsimp only
    have hper : hr + 12 ≥ 12 := by omega
    rw [if_pos hper]
    have hz : (hr + 12 == 0) = false := by simp
    rw [hz]
    have hgt : hr + 12 > 12 := by omega
    simp only [Bool.false_eq_true, if_false, if_pos hgt]
    have hsub : hr + 12 - 12 = hr := by omega
    rw [hsub]
    simp

lemma char_eq_of_toNat_eq {c d : Char} (h : c.toNat = d.toNat) : c = d := by
  have hc := Char.ofNat_toNat c
  rw [h] at hc
  rw [← hc, Char.ofNat_toNat]

lemma roundtrip_finish {cs : List Char} {hr mv : Nat} (pmv : Bool) {m1 m2 : Char}
    (hh1 : 1 ≤ hr) (hh2 : hr ≤ 12)
    (hm1a : '0' ≤ m1) (hm1b : m1 ≤ '5') (hm2a : '0' ≤ m2) (hm2b : m2 ≤ '9')
    (hmveq : mv = 10 * digitVal m1 + digitVal m2)
    (hparse : parseTimeString ⟨cs⟩ = some
      ((if pmv && hr != 12 then hr + 12 else if !pmv && hr == 12 then 0 else hr), mv))
    (hnormeq : normalize ⟨cs⟩ = ⟨natToChars hr ++ ':' :: (m1 :: m2 :: ' ' ::
      [if pmv then 'P' else 'A', 'M'])⟩) :
    ∃ hm : Nat × Nat, parseTimeString ⟨cs⟩ = some hm ∧
      formatTimeString (hm.1 * 60 + hm.2) = normalize ⟨cs⟩ := by
  refine ⟨_, hparse, ?_⟩
  subst hmveq
  have hmv : 10 * digitVal m1 + digitVal m2 ≤ 59 := by
    have h5 := digitVal_le_5 hm1b
    have h9 := digitVal_le_9 hm2b
    omega
  rw [formatTimeString_spec hr _ pmv hh1 hh2 hmv, hnormeq,
    pad2_digits hm1a (le_trans hm1b (by decide)) hm2a hm2b]
  rfl

/-- C8: for every string matching the strict 12-hour grammar, parsing succeeds
and formatting the parsed time yields exactly the normalized form of the
input string. -/
theorem parse_format_roundtrip_normalize (t : String) (h : timeRegexTest t = true) :
    ∃ hm : Nat × Nat, parseTimeString t = some hm ∧
      formatTimeString (hm.1 * 60 + hm.2) = normalize t := by
  obtain ⟨cs⟩ := t
  unfold timeRegexTest at h
  dsimp only at h
  obtain ⟨mo, hmo⟩ := Option.isSome_iff_exists.mp h
  match cs, hmo with
  | [], hmo => exact absurd hmo (by simp [strictTimeMatch])
  | [c1], hmo => exact absurd hmo (by simp [strictTimeMatch])
  | c1 :: c2 :: cs2, hmo =>
    unfold strictTimeMatch at hmo
    dsimp only at hmo
    by_cases hc2 : c2 = ':'
    · rw [if_pos hc2] at hmo
      subst hc2
      by_cases hd1 : (('1' ≤ c1 && c1 ≤ '9') : Bool) = true
      case neg => rw [if_neg hd1] at hmo; exact absurd hmo (by simp)
      case pos =>
        rw [if_pos hd1] at hmo
        simp only [Bool.and_eq_true, decide_eq_true_eq] at hd1
        obtain ⟨hc1a, hc1b⟩ := hd1
        obtain ⟨hpac, m1, m2, hm1a, hm1b, hm2a, hm2b, hmo1, hmo2, hnorm⟩ :=
          strictAfterColon_spec hmo
        obtain ⟨hv, mv, pmv⟩ := mo
        simp only at hmo1 hmo2 hnorm hpac
        subst hmo1
        subst hmo2
        have hdigc1 : isDigitChar c1 = true := by
          unfold isDigitChar
          simp only [Bool.and_eq_true, decide_eq_true_eq]
          exact ⟨zero_le_char_of_one_le hc1a, hc1b⟩
        have hptm : parseTimeMatch (c1 :: ':' :: cs2) =
            some (digitVal c1, 10 * digitVal m1 + digitVal m2, pmv) := by
          unfold parseTimeMatch
          dsimp only
          rw [if_pos rfl, if_pos hdigc1, hpac]
        refine roundtrip_finish pmv (one_le_digitVal hc1a)
          (le_trans (digitVal_le_9 hc1b) (by omega)) hm1a hm1b hm2a hm2b rfl ?_ ?_
        · unfold parseTimeString
          dsimp only
          rw [hptm]
        · unfold normalize
          dsimp only
          rw [if_pos rfl, hnorm, natToChars_digitVal (zero_le_char_of_one_le hc1a) hc1b]
          rfl
    · rw [if_neg hc2] at hmo
      match cs2, hmo with
      | [], hmo => exact absurd hmo (by simp)
      | c3 :: cs3, hmo =>
        dsimp only at hmo
        by_cases hc3 : c3 = ':'
        case neg => rw [if_neg hc3] at hmo; exact absurd hmo (by simp)
        case pos =>
          rw [if_pos hc3] at hmo
          subst hc3
          by_cases hz : c1 = '0'
          · rw [if_pos hz] at hmo
            by_cases hd2 : (('1' ≤ c2 && c2 ≤ '9') : Bool) = true
            case neg => rw [if_neg hd2] at hmo; exact absurd hmo (by simp)
            case pos =>
              rw [if_pos hd2] at hmo
              simp only [Bool.and_eq_true, decide_eq_true_eq] at hd2
              obtain ⟨hc2a, hc2b⟩ := hd2
              obtain ⟨hpac, m1, m2, hm1a, hm1b, hm2a, hm2b, hmo1, hmo2, hnorm⟩ :=
                strictAfterColon_spec hmo
              obtain ⟨hv, mv, pmv⟩ := mo
              simp only at hmo1 hmo2 hnorm hpac
              subst hmo1
              subst hmo2
              refine roundtrip_finish pmv (one_le_digitVal hc2a)
                (le_trans (digitVal_le_9 hc2b) (by omega)) hm1a hm1b hm2a hm2b rfl ?_ ?_
              · unfold parseTimeString parseTimeMatch
                dsimp only
                rw [if_neg hc2]
                rw [if_pos rfl]
                rw [show (isDigitChar c1 && isDigitChar c2) = true from by
                  rw [hz]
                  have hd : isDigitChar c2 = true := by
                    unfold isDigitChar
                    simp only [Bool.and_eq_true, decide_eq_true_eq]
                    exact ⟨zero_le_char_of_one_le hc2a, hc2b⟩
                  rw [hd]
                  decide]
                rw [show 10 * digitVal c1 + digitVal c2 = digitVal c2 from by
                  rw [hz]
                  have h0 : digitVal '0' = 0 := rfl
                  rw [h0]
                  omega]
                rw [hpac]
                rfl
              · unfold normalize
                dsimp only
                rw [if_neg hc2]
                rw [if_pos rfl, if_pos hz, hnorm,
                  natToChars_digitVal (zero_le_char_of_one_le hc2a) hc2b]
                rfl
          · rw [if_neg hz] at hmo
            by_cases ho : c1 = '1'
            case neg => rw [if_neg ho] at hmo; exact absurd hmo (by simp)
            case pos =>
              rw [if_pos ho] at hmo
              by_cases hd2 : (('0' ≤ c2 && c2 ≤ '2') : Bool) = true
              case neg => rw [if_neg hd2] at hmo; exact absurd hmo (by simp)
              case pos =>
                rw [if_pos hd2] at hmo
                simp only [Bool.and_eq_true, decide_eq_true_eq] at hd2
                obtain ⟨hc2a, hc2b⟩ := hd2
                obtain ⟨hpac, m1, m2, hm1a, hm1b, hm2a, hm2b, hmo1, hmo2, hnorm⟩ :=
                  strictAfterColon_spec hmo
                obtain ⟨hv, mv, pmv⟩ := mo
                simp only at hmo1 hmo2 hnorm hpac
                subst hmo1
                subst hmo2
                have hdv2 : digitVal c2 ≤ 2 := by
                  have hb : c2.toNat ≤ 50 := char_toNat_le_of_le hc2b
                  unfold digitVal
                  omega
                refine roundtrip_finish pmv
                  (show 1 ≤ 10 + digitVal c2 by omega)
                  (show 10 + digitVal c2 ≤ 12 by omega)
                  hm1a hm1b hm2a hm2b rfl ?_ ?_
                · unfold parseTimeString parseTimeMatch
                  dsimp only
                  rw [if_neg hc2]
                  rw [if_pos rfl]
                  rw [show (isDigitChar c1 && isDigitChar c2) = true from by
                    rw [ho]
                    have hd : isDigitChar c2 = true := by
                      unfold isDigitChar
                      simp only [Bool.and_eq_true, decide_eq_true_eq]
                      exact ⟨hc2a, le_trans hc2b (by decide)⟩
                    rw [hd]
                    decide]
                  rw [show 10 * digitVal c1 + digitVal c2 = 10 + digitVal c2 from by
                    rw [ho]
                    rfl]
                  rw [hpac]
                  rfl
                · unfold normalize
                  dsimp only
                  rw [if_neg hc2]
                  rw [if_pos rfl, if_neg hz, hnorm]
                  rw [show natToChars (10 + digitVal c2) = [c1, c2] from by
                    unfold natToChars
                    rw [if_neg (by omega)]
                    have e1 : (10 + digitVal c2) / 10 = 1 := by omega
                    have e2 : (10 + digitVal c2) % 10 = digitVal c2 := by omega
                    rw [e1, e2, digitToChar_digitVal hc2a (le_trans hc2b (by decide)), ho]
                    rfl]
                  rfl

/-- Witness for C8 at a concrete grammar string with a leading zero, a lower
case period and no space anomaly. -/
theorem parse_format_roundtrip_witness :
    timeRegexTest "09:05 pm" = true ∧
    ∃ hm : Nat × Nat, parseTimeString "09:05 pm" = some hm ∧
      formatTimeString (hm.1 * 60 + hm.2) = normalize "09:05 pm" :=
  ⟨by decide, parse_format_roundtrip_normalize "09:05 pm" (by decide)⟩

end PearlConnect
